import Mathlib

/-!
Behavioural emulation engine: path planner, timing model, action composer.

A shallow embedding of `internal/stealth/bezier.go`, `internal/stealth/randomization.go`,
the page setup and the human-action functions of `internal/stealth/fingerprint.go`, and the
campaign loop of `cmd/main.go`.

Numeric representation.  `float64` values are modelled by exact rationals: `+ - * /` are the
field operations of `ℚ`, `math.Pow(x, k)` for a literal `k` is `x ^ k`, `math.Sqrt` is the
square root rounded down to a multiple of `2⁻⁵²` (exact on squares of such multiples) and
`int(x)` truncates toward zero.  Go `int` values are 64-bit: where a result is computed from
caller-supplied integers it is wrapped to the signed 64-bit range.

Randomness.  The package-level `math/rand` source is a stream of raw draws together with a
cursor.  `rand.Seed(time.Now().UnixNano())` only changes which values the following draws
produce; since every statement below quantifies over the whole stream, re-seeding is the
identity on the model.
-/

namespace Stealth

/-! ## math/rand -/

/-- The package-level random source: the raw values successive draws will observe, and the
number of draws made so far. -/
structure Rand where
  draws : Nat → Nat
  pos : Nat

/-- Advance the source past one draw. -/
def Rand.next (r : Rand) : Rand := { r with pos := r.pos + 1 }

/-- The raw value the next draw observes. -/
def Rand.raw (r : Rand) : Nat := r.draws r.pos

/-- The value of `rand.Float64()` for a raw draw: `float64(Int63n(1<<53)) / (1<<53)`, a
multiple of `2⁻⁵³` in `[0, 1)`. -/
def float64Of (raw : Nat) : ℚ := ((raw % 2 ^ 53 : Nat) : ℚ) / 2 ^ 53

/-- `rand.Float64()`: the drawn value and the advanced source. -/
def Float64 (r : Rand) : ℚ × Rand := (float64Of r.raw, r.next)

/-! ## float64 helpers -/

/-- `math.Sqrt` on the model: the square root rounded down to a multiple of `2⁻⁵²`. -/
def Sqrt (x : ℚ) : ℚ := ((Nat.sqrt ⌊x * 2 ^ 104⌋.toNat : Nat) : ℚ) / 2 ^ 52

/-- The conversion `int(x)` of a float: truncation toward zero. -/
def int (x : ℚ) : Int := if 0 ≤ x then ⌊x⌋ else ⌈x⌉

/-! ## bezier.go -/

/-- Point represents a 2D coordinate. -/
structure Point where
  X : ℚ
  Y : ℚ
deriving DecidableEq

/-- The `distance` computed at the head of `GenerateBezierPath`. -/
def distance (start end_ : Point) : ℚ :=
  let dx := end_.X - start.X
  let dy := end_.Y - start.Y
  Sqrt (dx * dx + dy * dy)

/-- The `numPoints` computed by `GenerateBezierPath`: `int(distance/50) + 3`, then the two
clamping `if`s in source order. -/
def numPoints (start end_ : Point) : Int :=
  let numPoints := int (distance start end_ / 50) + 3
  let numPoints := if numPoints > 20 then 20 else numPoints
  let numPoints := if numPoints < 5 then 5 else numPoints
  numPoints

/-- The cubic Bézier formula of the loop body on one axis, before the micro-movement. -/
def bezierAt (t p0 p1 p2 p3 : ℚ) : ℚ :=
  (1 - t) ^ 3 * p0 + 3 * (1 - t) ^ 2 * t * p1 + 3 * (1 - t) * t ^ 2 * p2 + t ^ 3 * p3

/-- The loop `for i := 0; i <= numPoints; i++` of `GenerateBezierPath`, from index `i` with
`k` iterations left: every iteration evaluates the curve at `t = i / numPoints`, draws two
micro-movements and appends the point. -/
def bezierLoop (start end_ cp1 cp2 : Point) (n : Int) : Nat → Int → Rand → List Point × Rand
  | 0, _, r => ([], r)
  | k + 1, i, r =>
    let t : ℚ := (i : ℚ) / (n : ℚ)
    let x := bezierAt t start.X cp1.X cp2.X end_.X
    let y := bezierAt t start.Y cp1.Y cp2.Y end_.Y
    let jx := Float64 r
    let x := x + (jx.1 - 0.5) * 0.5
    let jy := Float64 jx.2
    let y := y + (jy.1 - 0.5) * 0.5
    let rest := bezierLoop start end_ cp1 cp2 n k (i + 1) jy.2
    ({ X := x, Y := y } :: rest.1, rest.2)

/-- GenerateBezierPath creates a human-like mouse path using Cubic Bézier curves: the
returned path and the random source after its draws. -/
def GenerateBezierPath (start end_ : Point) (r : Rand) : List Point × Rand :=
  let dx := end_.X - start.X
  let dy := end_.Y - start.Y
  let distance := distance start end_
  let numPoints := numPoints start end_
  let u1 := Float64 r
  let cp1X := start.X + dx * 0.3 + (u1.1 - 0.5) * distance * 0.2
  let u2 := Float64 u1.2
  let cp1Y := start.Y + dy * 0.3 + (u2.1 - 0.5) * distance * 0.2
  let u3 := Float64 u2.2
  let cp2X := end_.X - dx * 0.2 + (u3.1 - 0.5) * distance * 0.15
  let u4 := Float64 u3.2
  let cp2Y := end_.Y - dy * 0.2 + (u4.1 - 0.5) * distance * 0.15
  let path := bezierLoop start end_ ⟨cp1X, cp1Y⟩ ⟨cp2X, cp2Y⟩ numPoints
    (numPoints + 1).toNat 0 u4.2
  (path.1 ++ [end_], path.2)

/-- The overshoot point of `GenerateOvershootPath` for an overshoot factor. -/
def overshootPoint (start end_ : Point) (overshootFactor : ℚ) : Point :=
  let dx := end_.X - start.X
  let dy := end_.Y - start.Y
  { X := end_.X + dx * overshootFactor, Y := end_.Y + dy * overshootFactor }

/-- GenerateOvershootPath creates a path that overshoots the target and corrects. -/
def GenerateOvershootPath (start end_ : Point) (r : Rand) : List Point × Rand :=
  let u := Float64 r
  let overshootFactor := 0.05 + u.1 * 0.1
  let overshoot := overshootPoint start end_ overshootFactor
  let path1 := GenerateBezierPath start overshoot u.2
  let path2 := GenerateBezierPath overshoot end_ path1.2
  let fullPath := path1.1.take (path1.1.length - 1) ++ path2.1
  (fullPath, path2.2)

/-! ## Specification vocabulary for the path planner -/

/-- The clamp of `x` to `[lo, hi]`. -/
def clamp (x lo hi : Int) : Int := max lo (min x hi)

/-- The overshoot factor `0.05 + rand.Float64()*0.1` that `GenerateOvershootPath` draws from
a source. -/
def overshootFactorOf (r : Rand) : ℚ := 0.05 + float64Of r.raw * 0.1

/-- A random source all of whose draws are the raw value `v`. -/
def constRand (v : Nat) : Rand := { draws := fun _ => v, pos := 0 }

/-- The jittered curve samples `i = 0..numPoints` that `GenerateBezierPath` collects before it
appends `end`: the path without its final element. -/
def curveSamples (start end_ : Point) (r : Rand) : List Point :=
  (GenerateBezierPath start end_ r).1.dropLast

/-- The value of a Go `int` (64-bit two's complement) holding the mathematical result `x`. -/
def wrap64 (x : Int) : Int := (x + 2 ^ 63) % 2 ^ 64 - 2 ^ 63

/-- A Go string: a sequence of bytes, not necessarily valid UTF-8. -/
abbrev GoString := List UInt8

/-- The replacement rune `U+FFFD` (`utf8.RuneError`). -/
def RuneError : Nat := 0xFFFD

/-- A continuation byte: `locb <= b && b <= hicb`. -/
def isCont (b : UInt8) : Bool := 0x80 ≤ b.toNat && b.toNat ≤ 0xBF

/-- The rune a `for range` loop over a string yields at a position whose first byte is `b0`
and whose following bytes are `bs`, with the number of bytes it consumes (the runtime's
`decoderune` behind the ASCII fast path).  Masks and shifts are written arithmetically:
`b & 0x3F` is `b % 64`, `x << 6` is `x * 64`, and `|` of disjoint bit fields is `+`. -/
def decodeRune (b0 : UInt8) (bs : List UInt8) : Nat × Nat :=
  if b0.toNat < 0x80 then (b0.toNat, 1)
  else if 0xC0 ≤ b0.toNat ∧ b0.toNat < 0xE0 then
    match bs with
    | b1 :: _ =>
      if isCont b1 then
        let r := b0.toNat % 32 * 64 + b1.toNat % 64
        if 0x7F < r then (r, 2) else (RuneError, 1)
      else (RuneError, 1)
    | _ => (RuneError, 1)
  else if 0xE0 ≤ b0.toNat ∧ b0.toNat < 0xF0 then
    match bs with
    | b1 :: b2 :: _ =>
      if isCont b1 && isCont b2 then
        let r := b0.toNat % 16 * 4096 + b1.toNat % 64 * 64 + b2.toNat % 64
        if 0x7FF < r ∧ ¬ (0xD800 ≤ r ∧ r ≤ 0xDFFF) then (r, 3) else (RuneError, 1)
      else (RuneError, 1)
    | _ => (RuneError, 1)
  else if 0xF0 ≤ b0.toNat ∧ b0.toNat < 0xF8 then
    match bs with
    | b1 :: b2 :: b3 :: _ =>
      if isCont b1 && isCont b2 && isCont b3 then
        let r := b0.toNat % 8 * 262144 + b1.toNat % 64 * 4096 + b2.toNat % 64 * 64
          + b3.toNat % 64
        if 0xFFFF < r ∧ r ≤ 0x10FFFF then (r, 4) else (RuneError, 1)
      else (RuneError, 1)
    | _ => (RuneError, 1)
  else (RuneError, 1)

/-- The runes `for _, char := range text` yields, in order. -/
def runes : GoString → List Nat
  | [] => []
  | b0 :: bs => (decodeRune b0 bs).1 :: runes (bs.drop ((decodeRune b0 bs).2 - 1))
termination_by s => s.length
decreasing_by
  simp only [List.length_drop, List.length_cons]
  omega

/-- The conversion `string(char)` of a rune: its UTF-8 encoding, with surrogates and values
above `U+10FFFF` replaced by `U+FFFD` (the runtime's `encoderune`). -/
def runeString (r : Nat) : GoString :=
  if r ≤ 0x7F then [UInt8.ofNat r]
  else if r ≤ 0x7FF then [UInt8.ofNat (0xC0 + r / 64), UInt8.ofNat (0x80 + r % 64)]
  else if 0x10FFFF < r ∨ (0xD800 ≤ r ∧ r ≤ 0xDFFF) then [0xEF, 0xBF, 0xBD]
  else if r ≤ 0xFFFF then
    [UInt8.ofNat (0xE0 + r / 4096), UInt8.ofNat (0x80 + r / 64 % 64), UInt8.ofNat (0x80 + r % 64)]
  else
    [UInt8.ofNat (0xF0 + r / 262144), UInt8.ofNat (0x80 + r / 4096 % 64),
      UInt8.ofNat (0x80 + r / 64 % 64), UInt8.ofNat (0x80 + r % 64)]

/-! ## The remote surface -/

/-- A non-nil Go `error`; `Option Error` is an `error` that may be `nil`. -/
abbrev Error := String

/-- The calls made on the browser, the page and the resolved element: those of the human
actions, then `browser.Page`, `page.SetUserAgent`, `page.Eval(stealthScript)` and
`page.SetViewport` of the page setup. -/
inductive Call where
  | Element (selector : GoString)
  | Shape
  | Click
  | SelectAllText
  | Input (text : GoString)
  | MoveTo (p : Point)
  | Eval (arg : Int)
  | NewPage
  | SetUserAgent (userAgent acceptLanguage : GoString)
  | EvalStealthScript
  | SetViewport (width height deviceScaleFactor : Int) (mobile : Bool)
deriving DecidableEq

/-- The remote page as seen by the engine: for each call, given the calls made before it, the
error it returns (`none` for `nil`), and the quads `Shape()` returns when it succeeds. -/
structure Surface where
  err : List Call → Call → Option Error
  quads : List Call → List (List ℚ)

/-- The state a human action runs in: the random source, the calls dispatched so far (oldest
first) and the durations handed to `time.Sleep`, in nanoseconds. -/
structure World where
  rand : Rand
  calls : List Call
  slept : List Int

/-- Dispatch one call: its error and the world with the call recorded. -/
def dispatch (s : Surface) (c : Call) (w : World) : Option Error × World :=
  (s.err w.calls c, { w with calls := w.calls ++ [c] })

/-! ## randomization.go -/

/-- The duration `time.Millisecond`, in nanoseconds. -/
def Millisecond : Int := 1000000

/-- `rand.Intn(n)`: a value in `[0, n)`; `none` is the panic for `n <= 0`. -/
def Intn (n : Int) (r : Rand) : Option (Nat × Rand) :=
  if n ≤ 0 then none else some (r.raw % n.toNat, r.next)

/-- RandomSleep sleeps for a random duration between min and max milliseconds; `none` is a
panic of `rand.Intn`. -/
def RandomSleep (minMs maxMs : Int) (w : World) : Option World :=
  let minMs := if minMs < 0 then 0 else minMs
  let maxMs := if maxMs < minMs then minMs else maxMs
  match Intn (wrap64 (maxMs - minMs + 1)) w.rand with
  | none => none
  | some (v, rand) =>
    let duration := wrap64 (wrap64 (minMs + v) * Millisecond)
    some { w with rand := rand, slept := w.slept ++ [duration] }

/-- HumanTypingDelay returns a random delay between keystrokes. -/
def HumanTypingDelay (r : Rand) : Option (Int × Rand) :=
  match Intn 100 r with
  | none => none
  | some (v, rand) => some (wrap64 (wrap64 (50 + v) * Millisecond), rand)

/-! ## fingerprint.go: human actions

Every action returns `none` when it panics and otherwise the `error` it returns together with
the world it leaves. -/

/-- The loop `for _, point := range path` of `HumanMouseMove`. -/
def moveLoop (s : Surface) : List Point → World → Option (Option Error × World)
  | [], w => some (none, w)
  | point :: rest, w =>
    let d := dispatch s (Call.MoveTo { X := point.X, Y := point.Y }) w
    match d.1 with
    | some err => some (some err, d.2)
    | none =>
      match RandomSleep 5 15 d.2 with
      | none => none
      | some w => moveLoop s rest w

/-- HumanMouseMove moves the mouse along a Bézier curve path. -/
def HumanMouseMove (s : Surface) (start end_ : Point) (w : World) :
    Option (Option Error × World) :=
  let path := GenerateOvershootPath start end_ w.rand
  moveLoop s path.1 { w with rand := path.2 }

/-- The tail of `HumanClick` once the first quad has eight coordinates. -/
def clickAt (s : Surface) (x1 y1 x2 y2 x3 y3 x4 y4 : ℚ) (w : World) :
    Option (Option Error × World) :=
  let minX := x1
  let minX := if x2 < minX then x2 else minX
  let minX := if x3 < minX then x3 else minX
  let minX := if x4 < minX then x4 else minX
  let maxX := x1
  let maxX := if x2 > maxX then x2 else maxX
  let maxX := if x3 > maxX then x3 else maxX
  let maxX := if x4 > maxX then x4 else maxX
  let minY := y1
  let minY := if y2 < minY then y2 else minY
  let minY := if y3 < minY then y3 else minY
  let minY := if y4 < minY then y4 else minY
  let maxY := y1
  let maxY := if y2 > maxY then y2 else maxY
  let maxY := if y3 > maxY then y3 else maxY
  let maxY := if y4 > maxY then y4 else maxY
  let centerX := (minX + maxX) / 2
  let centerY := (minY + maxY) / 2
  let currentPos : Point := { X := 0, Y := 0 }
  match HumanMouseMove s currentPos { X := centerX, Y := centerY } w with
  | none => none
  | some (some err, w) => some (some err, w)
  | some (none, w) =>
    match RandomSleep 50 150 w with
    | none => none
    | some w =>
      let d := dispatch s Call.Click w
      match d.1 with
      | some err => some (some err, d.2)
      | none =>
        match RandomSleep 50 150 d.2 with
        | none => none
        | some w => some (none, w)

/-- The part of `HumanClick` after `Shape()` returned the quads with a `nil` error `err`: the
guard `if len(box.Quads) == 0 || len(box.Quads[0]) < 8 { return err }`, then the tail on the
first quad's eight coordinates. -/
def clickBox (s : Surface) (err : Option Error) (w : World) :
    List (List ℚ) → Option (Option Error × World)
  | (x1 :: y1 :: x2 :: y2 :: x3 :: y3 :: x4 :: y4 :: _) :: _ =>
    clickAt s x1 y1 x2 y2 x3 y3 x4 y4 w
  | _ => some (err, w)

/-- HumanClick performs a human-like click with mouse movement and delays. -/
def HumanClick (s : Surface) (selector : GoString) (w : World) :
    Option (Option Error × World) :=
  let d := dispatch s (Call.Element selector) w
  match d.1 with
  | some err => some (some err, d.2)
  | none =>
    let box := s.quads d.2.calls
    let d := dispatch s Call.Shape d.2
    let err := d.1
    match err with
    | some e => some (some e, d.2)
    | none => clickBox s err d.2 box

/-- One pass of the loop `for remaining > 0` of `HumanScroll` after the chunk was dispatched
successfully: the pause, and on a draw below `0.2` the corrective back-scroll, whose result is
discarded, with its shorter pause. -/
def afterChunk (s : Surface) (w : World) : Option World :=
  match RandomSleep 100 500 w with
  | none => none
  | some w =>
    let u := Float64 w.rand
    let w := { w with rand := u.2 }
    if u.1 < 0.2 then
      match Intn 50 w.rand with
      | none => none
      | some (v, rand) =>
        let backScroll : Int := 20 + v
        let d := dispatch s (Call.Eval (-backScroll)) { w with rand := rand }
        RandomSleep 50 150 d.2
    else some w

/-- The loop `for remaining > 0` of `HumanScroll` for a positive chunk size. -/
def scrollLoop (s : Surface) (chunkSize : Int) (hc : 0 < chunkSize) :
    Int → World → Option (Option Error × World)
  | remaining, w =>
    if _h : remaining > 0 then
      let currentScroll := if chunkSize > remaining then remaining else chunkSize
      let d := dispatch s (Call.Eval currentScroll) w
      match d.1 with
      | some err => some (some err, d.2)
      | none =>
        match afterChunk s d.2 with
        | none => none
        | some w => scrollLoop s chunkSize hc (remaining - currentScroll) w
    else some (none, w)
termination_by remaining _ => remaining.toNat
decreasing_by
  split_ifs <;> omega

/-- HumanScroll scrolls the page with human-like patterns. -/
def HumanScroll (s : Surface) (scrollAmount : Int) (w : World) :
    Option (Option Error × World) :=
  match Intn 300 w.rand with
  | none => none
  | some (v, rand) =>
    scrollLoop s (200 + (v : Int)) (by omega) scrollAmount { w with rand := rand }

/-- The loop `for _, char := range text` of `HumanType`, over the runes of the text. -/
def typeLoop (s : Surface) : List Nat → World → Option (Option Error × World)
  | [], w => some (none, w)
  | char :: rest, w =>
    let d := dispatch s (Call.Input (runeString char)) w
    match d.1 with
    | some err => some (some err, d.2)
    | none =>
      match HumanTypingDelay d.2.rand with
      | none => none
      | some (delay, rand) =>
        typeLoop s rest { d.2 with rand := rand, slept := d.2.slept ++ [delay] }

/-- HumanType types text with human-like delays between keystrokes. -/
def HumanType (s : Surface) (selector text : GoString) (w : World) :
    Option (Option Error × World) :=
  let d := dispatch s (Call.Element selector) w
  match d.1 with
  | some err => some (some err, d.2)
  | none =>
    let d := dispatch s Call.Click d.2
    match d.1 with
    | some err => some (some err, d.2)
    | none =>
      let d := dispatch s Call.SelectAllText d.2
      let w := match d.1 with
        | some _ => (dispatch s (Call.Input []) d.2).2
        | none => d.2
      typeLoop s (runes text) w

/-! ## Specification vocabulary for the human actions -/

/-- The deltas of the scroll dispatches in a list of calls, in order. -/
def scrollDeltas : List Call → List Int
  | [] => []
  | Call.Eval a :: cs => a :: scrollDeltas cs
  | _ :: cs => scrollDeltas cs

/-- The strings of the input events in a list of calls, in order. -/
def inputTexts : List Call → List GoString
  | [] => []
  | Call.Input t :: cs => t :: inputTexts cs
  | _ :: cs => inputTexts cs

/-- The pointer moves and clicks in a list of calls. -/
def pointerCalls : List Call → List Call
  | [] => []
  | Call.MoveTo p :: cs => Call.MoveTo p :: pointerCalls cs
  | Call.Click :: cs => Call.Click :: pointerCalls cs
  | _ :: cs => pointerCalls cs

/-- A Unicode scalar value: a code point that is not a surrogate. -/
def IsScalar (c : Nat) : Prop := c < 0xD800 ∨ (0xDFFF < c ∧ c ≤ 0x10FFFF)

/-- The UTF-8 text whose code points are `cs`. -/
def utf8 (cs : List Nat) : GoString := (cs.map runeString).flatten

/-- A world with nothing dispatched and nothing slept yet. -/
def freshWorld (r : Rand) : World := { rand := r, calls := [], slept := [] }

/-- A surface on which every call succeeds and `Shape()` returns the given quads. -/
def okSurface (quads : List (List ℚ)) : Surface :=
  { err := fun _ _ => none, quads := fun _ => quads }

/-! ## fingerprint.go: page setup -/

/-- The bytes of a string literal. -/
def goString (s : String) : GoString := s.toUTF8.toList

/-- The pool of user agent strings of `GetRandomUserAgent`. -/
def userAgents : List GoString :=
  [goString "Mozilla/5.0 (Windows NT 10.0; Win64; x64) AppleWebKit/537.36 (KHTML, like Gecko) Chrome/120.0.0.0 Safari/537.36",
   goString "Mozilla/5.0 (Windows NT 10.0; Win64; x64) AppleWebKit/537.36 (KHTML, like Gecko) Chrome/119.0.0.0 Safari/537.36",
   goString "Mozilla/5.0 (Macintosh; Intel Mac OS X 10_15_7) AppleWebKit/537.36 (KHTML, like Gecko) Chrome/120.0.0.0 Safari/537.36",
   goString "Mozilla/5.0 (Windows NT 10.0; Win64; x64; rv:121.0) Gecko/20100101 Firefox/121.0",
   goString "Mozilla/5.0 (Macintosh; Intel Mac OS X 10_15_7) AppleWebKit/605.1.15 (KHTML, like Gecko) Version/17.1 Safari/605.1.15"]

/-- GetRandomUserAgent returns a realistic user agent string; `none` is a panic of
`rand.Intn`. -/
def GetRandomUserAgent (r : Rand) : Option (GoString × Rand) :=
  match Intn userAgents.length r with
  | none => none
  | some (i, rand) => some (userAgents.getD i [], rand)

/-- ApplyStealthFingerprint applies anti-detection JavaScript to mask automation: it evaluates
the stealth script on the page and returns the error of that evaluation. -/
def ApplyStealthFingerprint (s : Surface) (w : World) : Option Error × World :=
  let d := dispatch s Call.EvalStealthScript w
  let err := d.1
  (err, d.2)

/-- CreateStealthPage creates a new page with stealth features applied. The result is whether
the returned page is non-nil, and the returned error; `none` is a panic. -/
def CreateStealthPage (s : Surface) (userAgent : GoString) (w : World) :
    Option ((Bool × Option Error) × World) :=
  let d := dispatch s Call.NewPage w
  match d.1 with
  | some err => some ((false, some err), d.2)
  | none =>
    let ua : Option (GoString × World) :=
      if userAgent = [] then
        match GetRandomUserAgent d.2.rand with
        | none => none
        | some (u, rand) => some (u, { d.2 with rand := rand })
      else some (userAgent, d.2)
    match ua with
    | none => none
    | some (userAgent, w) =>
      let d := dispatch s (Call.SetUserAgent userAgent (goString "en-US,en;q=0.9")) w
      match d.1 with
      | some err => some ((false, some err), d.2)
      | none =>
        let a := ApplyStealthFingerprint s d.2
        match a.1 with
        | some err => some ((false, some err), a.2)
        | none =>
          let d := dispatch s (Call.SetViewport 1920 1080 1 false) a.2
          let err := d.1
          some ((true, err), d.2)

/-! ## cmd/main.go: the campaign loop -/

/-- ProfileResult, as returned by `SearchAndScrape`. -/
structure ProfileResult where
  URL : GoString
  Name : GoString
  Headline : GoString

/-- What the campaign loop asked of its collaborators, with what they answered. A connection
attempt also records the value `actionsCount` had when it was made. -/
inductive Action where
  | IsProcessed (url : GoString) (processed : Bool) (err : Option Error)
  | SendConnectionRequest (url : GoString) (actionsCount : Int) (err : Option Error)
  | MarkProcessed (url : GoString) (err : Option Error)
deriving DecidableEq

/-- The collaborators of the loop, as arbitrary functions of what happened before:
`historyDB.IsProcessed`, `workflows.SendConnectionRequest` (which also drives the page and so
changes the world) and `historyDB.MarkProcessed`. -/
structure Collaborators where
  IsProcessed : List Action → GoString → Bool × Option Error
  SendConnectionRequest : List Action → World → GoString → Option Error × World
  MarkProcessed : List Action → GoString → Option Error

/-- The state of the campaign loop: the counter, the actions so far (oldest first) and the
world of the page. -/
structure Campaign where
  actionsCount : Int
  actions : List Action
  world : World

/-- The loop `for _, profile := range profiles` of `main`; `none` is a panic. -/
def campaignLoop (c : Collaborators) (MaxActions : Int) :
    List ProfileResult → Campaign → Option Campaign
  | [], st => some st
  | profile :: rest, st =>
    if st.actionsCount ≥ MaxActions then some st
    else
      let p := c.IsProcessed st.actions profile.URL
      let st := { st with actions := st.actions ++ [Action.IsProcessed profile.URL p.1 p.2] }
      match p.2 with
      | some _ => campaignLoop c MaxActions rest st
      | none =>
        if p.1 then campaignLoop c MaxActions rest st
        else
          let r := c.SendConnectionRequest st.actions st.world profile.URL
          let st := { st with
            actions := st.actions ++
              [Action.SendConnectionRequest profile.URL st.actionsCount r.1],
            world := r.2 }
          match r.1 with
          | some _ => campaignLoop c MaxActions rest st
          | none =>
            let m := c.MarkProcessed st.actions profile.URL
            let st := { st with actions := st.actions ++ [Action.MarkProcessed profile.URL m] }
            let st := { st with actionsCount := wrap64 (st.actionsCount + 1) }
            match RandomSleep 5000 10000 st.world with
            | none => none
            | some w => campaignLoop c MaxActions rest { st with world := w }

/-- The campaign of `main`: `actionsCount := 0`, then the loop. -/
def campaign (c : Collaborators) (MaxActions : Int) (profiles : List ProfileResult)
    (w : World) : Option Campaign :=
  campaignLoop c MaxActions profiles { actionsCount := 0, actions := [], world := w }

/-- The number of connection requests that succeeded: the ones the loop counts as sent. -/
def sentCount (actions : List Action) : Nat :=
  actions.countP fun a =>
    match a with
    | Action.SendConnectionRequest _ _ none => true
    | _ => false

/-- Collaborators for which nothing is processed yet and everything succeeds. -/
def okCollaborators : Collaborators :=
  { IsProcessed := fun _ _ => (false, none),
    SendConnectionRequest := fun _ w _ => (none, w),
    MarkProcessed := fun _ _ => none }

/-- A surface on which only scrolls by a negative amount fail. -/
def backScrollFails : Surface :=
  { err := fun _ c =>
      match c with
      | Call.Eval a => if a < 0 then some "scroll failed" else none
      | _ => none,
    quads := fun _ => [] }

/-- A surface on which only the evaluation of the stealth script fails. -/
def stealthScriptFails : Surface :=
  { err := fun _ c =>
      match c with
      | Call.EvalStealthScript => some "eval failed"
      | _ => none,
    quads := fun _ => [] }

/-- A surface on which every pointer move fails. -/
def moveFails : Surface :=
  { err := fun _ c =>
      match c with
      | Call.MoveTo _ => some "move failed"
      | _ => none,
    quads := fun _ => [] }

/-- The error `HumanMouseMove` returns when the moves to `pre` succeeded and `rest` is what was
left of the path: `nil` at the end of the path, otherwise the error of the next move. -/
def moveError (s : Surface) (calls : List Call) (pre : List Point) : List Point → Option Error
  | [] => none
  | p :: _ => s.err (calls ++ pre.map Call.MoveTo) (Call.MoveTo p)

/-- Every connection attempt in a list of actions directly follows a lookup of the same URL
that reported it as not processed, without error. -/
def AttemptsGuarded (actions : List Action) : Prop :=
  ∀ pre url n e post, actions = pre ++ Action.SendConnectionRequest url n e :: post →
    ∃ pre', pre = pre' ++ [Action.IsProcessed url false none]

/-- What the safety limit asks of a campaign state. -/
def WithinLimit (MaxActions : Int) (st : Campaign) : Prop :=
  0 ≤ st.actionsCount ∧ st.actionsCount ≤ MaxActions ∧
    st.actionsCount = sentCount st.actions ∧
    (∀ url n e, Action.SendConnectionRequest url n e ∈ st.actions → n < MaxActions) ∧
    AttemptsGuarded st.actions

/-- Three scraped profiles. -/
def threeProfiles : List ProfileResult :=
  [{ URL := goString "https://example.com/in/a", Name := [], Headline := [] },
   { URL := goString "https://example.com/in/b", Name := [], Headline := [] },
   { URL := goString "https://example.com/in/c", Name := [], Headline := [] }]

/-! ## Lemmas on the numeric helpers -/

theorem Sqrt_nonneg (x : ℚ) : 0 ≤ Sqrt x := by
  unfold Sqrt
  positivity

theorem int_of_nonneg {x : ℚ} (h : 0 ≤ x) : int x = ⌊x⌋ := by
  unfold int
  rw [if_pos h]

theorem distance_nonneg (start end_ : Point) : 0 ≤ distance start end_ := Sqrt_nonneg _

theorem numPoints_eq (start end_ : Point) :
    numPoints start end_ = clamp (⌊distance start end_ / 50⌋ + 3) 5 20 := by
  have h : 0 ≤ distance start end_ / 50 := div_nonneg (distance_nonneg _ _) (by norm_num)
  unfold numPoints clamp
  simp only [int_of_nonneg h]
  split_ifs <;> omega

theorem numPoints_ge (start end_ : Point) : 5 ≤ numPoints start end_ := by
  rw [numPoints_eq]; unfold clamp; omega

theorem bezierLoop_length (start end_ cp1 cp2 : Point) (n : Int) (k : Nat) (i : Int) (r : Rand) :
    (bezierLoop start end_ cp1 cp2 n k i r).1.length = k := by
  induction k generalizing i r with
  | zero => rfl
  | succ k ih => simp [bezierLoop, ih]

theorem bezierLoop_pos (start end_ cp1 cp2 : Point) (n : Int) (k : Nat) (i : Int) (r : Rand) :
    (bezierLoop start end_ cp1 cp2 n k i r).2.pos = r.pos + 2 * k := by
  induction k generalizing i r with
  | zero => rfl
  | succ k ih => simp [bezierLoop, ih, Float64, Rand.next]; ring

theorem GenerateBezierPath_fst (start end_ : Point) (r : Rand) :
    (GenerateBezierPath start end_ r).1 = curveSamples start end_ r ++ [end_] := by
  unfold curveSamples GenerateBezierPath
  simp

theorem curveSamples_length (start end_ : Point) (r : Rand) :
    ((curveSamples start end_ r).length : Int) = numPoints start end_ + 1 := by
  unfold curveSamples GenerateBezierPath
  simp only [List.dropLast_concat, bezierLoop_length]
  have := numPoints_ge start end_
  omega

/-- C1. For every start and end point and every sequence of random draws,
`GenerateBezierPath` returns a non-empty path whose last element is exactly `end`. -/
theorem GenerateBezierPath_ends_exactly_at_end (start end_ : Point) (r : Rand) :
    (GenerateBezierPath start end_ r).1 ≠ [] ∧
      (GenerateBezierPath start end_ r).1.getLast? = some end_ := by
  unfold GenerateBezierPath
  simp

/-- C2. For every start, end and sequence of draws, `GenerateOvershootPath(start, end)` is
`GenerateBezierPath(start, overshoot)` without its final element followed by all of
`GenerateBezierPath(overshoot, end)`, and its last element is exactly `end`. -/
theorem GenerateOvershootPath_is_two_legs (start end_ : Point) (r : Rand) :
    let overshoot := overshootPoint start end_ (overshootFactorOf r)
    let path1 := GenerateBezierPath start overshoot r.next
    let path2 := GenerateBezierPath overshoot end_ path1.2
    (GenerateOvershootPath start end_ r).1 = path1.1.dropLast ++ path2.1 ∧
      (GenerateOvershootPath start end_ r).1.getLast? = some end_ := by
  intro overshoot path1 path2
  have h : (GenerateOvershootPath start end_ r).1 = path1.1.dropLast ++ path2.1 := by
    unfold GenerateOvershootPath
    simp only [List.dropLast_eq_take]
    rfl
  refine ⟨h, ?_⟩
  rw [h, GenerateBezierPath_fst overshoot end_, ← List.append_assoc, List.getLast?_concat]


theorem GenerateOvershootPath_fst (start end_ : Point) (r : Rand) :
    (GenerateOvershootPath start end_ r).1 =
      curveSamples start (overshootPoint start end_ (overshootFactorOf r)) r.next ++
        (curveSamples (overshootPoint start end_ (overshootFactorOf r)) end_
            (GenerateBezierPath start (overshootPoint start end_ (overshootFactorOf r)) r.next).2
          ++ [end_]) := by
  rw [← GenerateBezierPath_fst]
  unfold GenerateOvershootPath curveSamples
  simp only [List.dropLast_eq_take]
  rfl

theorem wrap64_of_range {x : Int} (h1 : -9223372036854775808 ≤ x)
    (h2 : x < 9223372036854775808) : wrap64 x = x := by
  unfold wrap64
  norm_num
  omega

theorem Intn_of_pos {n : Int} (h : 0 < n) (r : Rand) :
    Intn n r = some (r.raw % n.toNat, r.next) := by
  unfold Intn
  rw [if_neg (by omega)]

/-- The sleep `RandomSleep` performs on inputs whose nanosecond counts fit 64 bits. -/
theorem RandomSleep_eq (minMs maxMs : Int) (w : World) (h0 : 0 ≤ minMs)
    (h1 : minMs ≤ 9223372036854) (h2 : maxMs ≤ 9223372036854) :
    RandomSleep minMs maxMs w = some { w with
      rand := w.rand.next,
      slept := w.slept ++
        [(minMs + ((w.rand.raw % (max minMs maxMs - minMs + 1).toNat : Nat) : Int))
          * Millisecond] } := by
  have hmax : (if maxMs < minMs then minMs else maxMs) = max minMs maxMs := by
    split_ifs <;> omega
  unfold RandomSleep
  simp only [if_neg (not_lt.mpr h0), hmax]
  have hn : 0 < max minMs maxMs - minMs + 1 := by omega
  have hv : ((w.rand.raw % (max minMs maxMs - minMs + 1).toNat : Nat) : Int)
      < max minMs maxMs - minMs + 1 := by
    have := Nat.mod_lt w.rand.raw (by omega : 0 < (max minMs maxMs - minMs + 1).toNat)
    omega
  rw [wrap64_of_range (by omega) (by omega), Intn_of_pos hn]
  simp only []
  rw [wrap64_of_range (x := minMs + _) (by omega) (by omega),
    wrap64_of_range (by unfold Millisecond; omega) (by unfold Millisecond; omega)]

/-- C3 (as stated, refuted). `RandomSleep(10^13, 10^13)` computes `10^13 * 10^6` nanoseconds,
which overflows 64 bits: the duration handed to `time.Sleep` is the negative value
`10^19 - 2^64`, not a number of milliseconds `d` with `10^13 ≤ d`. -/
theorem RandomSleep_overflows_for_huge_min :
    ∃ w, RandomSleep 10000000000000 10000000000000 (freshWorld (constRand 0)) = some w ∧
      w.slept = [-8446744073709551616] ∧
      ¬ ∃ d : Int, w.slept = [d * Millisecond] ∧ 10000000000000 ≤ d := by
  refine ⟨_, rfl, ?_, ?_⟩
  · decide
  · rintro ⟨d, hd, hle⟩
    have h : (-8446744073709551616 : Int) = d * Millisecond := by
      have := List.head_eq_of_cons_eq hd
      exact this
    unfold Millisecond at h
    omega

/-- C3 (amended). For `0 ≤ minMs` and `minMs, maxMs ≤ 9223372036854` (the millisecond counts
whose nanosecond value fits a 64-bit duration), `RandomSleep` sleeps exactly once, for a whole
number of milliseconds `d` with `minMs ≤ d ≤ max(minMs, maxMs)`: within `[minMs, maxMs]` when
`minMs ≤ maxMs`, and exactly `minMs` when `maxMs < minMs`. -/
theorem RandomSleep_duration_in_range (minMs maxMs : Int) (w : World) (h0 : 0 ≤ minMs)
    (h1 : minMs ≤ 9223372036854) (h2 : maxMs ≤ 9223372036854) :
    ∃ d : Int,
      RandomSleep minMs maxMs w = some { w with
        rand := w.rand.next, slept := w.slept ++ [d * Millisecond] } ∧
      minMs ≤ d ∧ d ≤ max minMs maxMs ∧
      (minMs ≤ maxMs → d ≤ maxMs) ∧ (maxMs < minMs → d = minMs) := by
  refine ⟨_, RandomSleep_eq minMs maxMs w h0 h1 h2, ?_⟩
  have hv := Nat.mod_lt w.rand.raw (by omega : 0 < (max minMs maxMs - minMs + 1).toNat)
  refine ⟨by omega, by omega, by omega, ?_⟩
  intro hlt
  have : (max minMs maxMs - minMs + 1).toNat = 1 := by omega
  rw [this] at hv ⊢
  omega

/-- Witness for C3 (amended): the inter-step pointer delay `RandomSleep(5, 15)`. -/
theorem RandomSleep_duration_in_range_witness :
    ∃ d : Int,
      RandomSleep 5 15 (freshWorld (constRand 7)) = some { freshWorld (constRand 7) with
        rand := (freshWorld (constRand 7)).rand.next,
        slept := (freshWorld (constRand 7)).slept ++ [d * Millisecond] } ∧
      5 ≤ d ∧ d ≤ max 5 15 ∧ ((5 : Int) ≤ 15 → d ≤ 15) ∧ ((15 : Int) < 5 → d = 5) :=
  RandomSleep_duration_in_range 5 15 (freshWorld (constRand 7)) (by decide) (by decide)
    (by decide)


/-! ## HumanScroll -/

/-- The positive (non-corrective) deltas among scroll deltas. -/
theorem scrollDeltas_append (xs ys : List Call) :
    scrollDeltas (xs ++ ys) = scrollDeltas xs ++ scrollDeltas ys := by
  induction xs with
  | nil => rfl
  | cons c cs ih => cases c <;> simp [scrollDeltas, ih]

/-- After a successful chunk the pass finishes without a panic and dispatches nothing, or one
corrective scroll of `-69 .. -20`. -/
theorem afterChunk_spec (s : Surface) (w : World) :
    ∃ w', afterChunk s w = some w' ∧
      (w'.calls = w.calls ∨
        ∃ a : Int, -69 ≤ a ∧ a ≤ -20 ∧ w'.calls = w.calls ++ [Call.Eval a]) := by
  unfold afterChunk
  rw [RandomSleep_eq 100 500 w (by decide) (by decide) (by decide)]
  simp only []
  split_ifs with hu
  · rw [Intn_of_pos (by decide : (0 : Int) < 50)]
    simp only []
    rw [RandomSleep_eq 50 150 _ (by decide) (by decide) (by decide)]
    refine ⟨_, rfl, Or.inr ⟨_, ?_, ?_, rfl⟩⟩
    · have := Nat.mod_lt (Float64 (Rand.next w.rand)).2.raw (by decide : 0 < (50 : Int).toNat)
      have h50 : (50 : Int).toNat = 50 := rfl
      rw [h50] at this ⊢
      omega
    · omega
  · exact ⟨_, rfl, Or.inl rfl⟩

/-- The forward chunks and corrective scrolls a run dispatched: what `new` must satisfy for a
run that started with `remaining` still to scroll. -/
theorem scrollLoop_spec (s : Surface) (chunkSize : Int) (hc : 0 < chunkSize)
    (hmax : chunkSize ≤ 499) (hok : ∀ cs a, s.err cs (Call.Eval a) = none) :
    ∀ (n : Nat) (remaining : Int) (w : World), remaining.toNat ≤ n →
      ∃ w' new, scrollLoop s chunkSize hc remaining w = some (none, w') ∧
        w'.calls = w.calls ++ new ∧
        ((scrollDeltas new).filter (fun a => decide (0 < a))).sum = max remaining 0 ∧
        (∀ a ∈ scrollDeltas new, (0 < a ∧ a ≤ 499) ∨ (-69 ≤ a ∧ a ≤ -20)) ∧
        (∀ c ∈ new, ∃ a, c = Call.Eval a) := by
  intro n
  induction n with
  | zero =>
    intro remaining w hn
    rw [scrollLoop, dif_neg (by omega)]
    exact ⟨w, [], rfl, by simp, by simp [scrollDeltas]; omega, by simp [scrollDeltas], by simp⟩
  | succ n ih =>
    intro remaining w hn
    by_cases hpos : remaining > 0
    · rw [scrollLoop, dif_pos hpos]
      simp only [dispatch, hok]
      set cur : Int := if chunkSize > remaining then remaining else chunkSize with hcur
      have hcur1 : 0 < cur ∧ cur ≤ 499 ∧ cur ≤ remaining := by
        rw [hcur]; split_ifs <;> omega
      obtain ⟨w1, h1, hcalls1⟩ := afterChunk_spec s
        { rand := w.rand, calls := w.calls ++ [Call.Eval cur], slept := w.slept }
      rw [h1]
      simp only []
      obtain ⟨w2, new2, h2, hc2, hsum2, hr2, he2⟩ := ih (remaining - cur) w1 (by omega)
      rw [h2]
      rcases hcalls1 with hcalls1 | ⟨a, ha1, ha2, hcalls1⟩
      · refine ⟨w2, Call.Eval cur :: new2, rfl, ?_, ?_, ?_, ?_⟩
        · rw [hc2, hcalls1]; simp
        · simp only [scrollDeltas, List.filter_cons, decide_eq_true hcur1.1, if_true,
            List.sum_cons, hsum2]
          omega
        · intro b hb
          simp only [scrollDeltas, List.mem_cons] at hb
          rcases hb with hb | hb
          · left; rw [hb]; exact ⟨hcur1.1, hcur1.2.1⟩
          · exact hr2 b hb
        · intro c hc'
          simp only [List.mem_cons] at hc'
          rcases hc' with hc' | hc'
          · exact ⟨cur, hc'⟩
          · exact he2 c hc'
      · refine ⟨w2, Call.Eval cur :: Call.Eval a :: new2, rfl, ?_, ?_, ?_, ?_⟩
        · rw [hc2, hcalls1]; simp
        · have hneg : decide (0 < a) = false := decide_eq_false (by omega)
          simp only [scrollDeltas, List.filter_cons, decide_eq_true hcur1.1, if_true, hneg,
            List.sum_cons, hsum2]
          simp
          omega
        · intro b hb
          simp only [scrollDeltas, List.mem_cons] at hb
          rcases hb with hb | hb | hb
          · left; rw [hb]; exact ⟨hcur1.1, hcur1.2.1⟩
          · right; rw [hb]; exact ⟨ha1, ha2⟩
          · exact hr2 b hb
        · intro c hc'
          simp only [List.mem_cons] at hc'
          rcases hc' with hc' | hc' | hc'
          · exact ⟨cur, hc'⟩
          · exact ⟨a, hc'⟩
          · exact he2 c hc'
    · rw [scrollLoop, dif_neg hpos]
      exact ⟨w, [], rfl, by simp, by simp [scrollDeltas]; omega, by simp [scrollDeltas],
        by simp⟩

/-- C4. For every `scrollAmount ≥ 0` and every sequence of draws, on a surface where every
scroll dispatch succeeds, `HumanScroll` returns `nil`; it dispatches only scroll calls, the
positive deltas sum to exactly `scrollAmount`, and every other delta is a corrective scroll of
`-69 .. -20`. -/
theorem HumanScroll_chunks_sum_to_amount (s : Surface) (scrollAmount : Int) (w : World)
    (h0 : 0 ≤ scrollAmount) (hok : ∀ cs a, s.err cs (Call.Eval a) = none) :
    ∃ w' new, HumanScroll s scrollAmount w = some (none, w') ∧
      w'.calls = w.calls ++ new ∧
      ((scrollDeltas new).filter (fun a => decide (0 < a))).sum = scrollAmount ∧
      (∀ a ∈ scrollDeltas new, (0 < a ∧ a ≤ 499) ∨ (-69 ≤ a ∧ a ≤ -20)) ∧
      (∀ c ∈ new, ∃ a, c = Call.Eval a) := by
  unfold HumanScroll
  rw [Intn_of_pos (by decide : (0 : Int) < 300)]
  simp only []
  have hv : w.rand.raw % (300 : Int).toNat < 300 := Nat.mod_lt _ (by decide)
  obtain ⟨w', new, h, hcalls, hsum, hr, he⟩ :=
    scrollLoop_spec s (200 + ((w.rand.raw % (300 : Int).toNat : Nat) : Int)) (by omega)
      (by omega) hok scrollAmount.toNat scrollAmount
      { rand := w.rand.next, calls := w.calls, slept := w.slept } le_rfl
  exact ⟨w', new, h, hcalls, by rw [hsum]; omega, hr, he⟩

/-- Witness for C4: `HumanScroll(surface, 1000)` on a surface where every call succeeds. -/
theorem HumanScroll_chunks_sum_to_amount_witness :
    ∃ w' new, HumanScroll (okSurface []) 1000 (freshWorld (constRand 0)) = some (none, w') ∧
      w'.calls = (freshWorld (constRand 0)).calls ++ new ∧
      ((scrollDeltas new).filter (fun a => decide (0 < a))).sum = 1000 ∧
      (∀ a ∈ scrollDeltas new, (0 < a ∧ a ≤ 499) ∨ (-69 ≤ a ∧ a ≤ -20)) ∧
      (∀ c ∈ new, ∃ a, c = Call.Eval a) :=
  HumanScroll_chunks_sum_to_amount (okSurface []) 1000 (freshWorld (constRand 0)) (by decide)
    (fun _ _ => rfl)


/-! ## Runes and UTF-8 -/

theorem toNat_ofNat (x : Nat) : (UInt8.ofNat x).toNat = x % 256 := rfl

/-- Ranging over the encoding of a scalar value followed by more text yields that value and
continues with the rest. -/
theorem runes_runeString_append (c : Nat) (hc : IsScalar c) (rest : GoString) :
    runes (runeString c ++ rest) = c :: runes rest := by
  unfold IsScalar at hc
  unfold runeString
  by_cases h1 : c ≤ 0x7F
  · rw [if_pos h1]
    simp only [List.singleton_append]
    rw [runes]
    have hb : (UInt8.ofNat c).toNat = c := by rw [toNat_ofNat]; omega
    simp only [decodeRune, hb, if_pos (by omega : c < 0x80)]
    simp
  · rw [if_neg h1]
    by_cases h2 : c ≤ 0x7FF
    · rw [if_pos h2]
      simp only [List.cons_append, List.nil_append]
      rw [runes]
      have hb0 : (UInt8.ofNat (0xC0 + c / 64)).toNat = 0xC0 + c / 64 := by
        rw [toNat_ofNat]; omega
      have hb1 : (UInt8.ofNat (0x80 + c % 64)).toNat = 0x80 + c % 64 := by
        rw [toNat_ofNat]; omega
      have hcont : isCont (UInt8.ofNat (0x80 + c % 64)) = true := by
        simp only [isCont, hb1, Bool.and_eq_true, decide_eq_true_eq]; omega
      have hr : (0xC0 + c / 64) % 32 * 64 + (0x80 + c % 64) % 64 = c := by omega
      simp only [decodeRune, hb0, hb1, hcont, hr, if_neg (by omega : ¬ (0xC0 + c / 64 < 0x80)),
        if_pos (by omega : 0xC0 ≤ 0xC0 + c / 64 ∧ 0xC0 + c / 64 < 0xE0), if_true,
        if_pos (by omega : 0x7F < c)]
      simp
    · rw [if_neg h2, if_neg (by omega)]
      by_cases h3 : c ≤ 0xFFFF
      · rw [if_pos h3]
        simp only [List.cons_append, List.nil_append]
        rw [runes]
        have hb0 : (UInt8.ofNat (0xE0 + c / 4096)).toNat = 0xE0 + c / 4096 := by
          rw [toNat_ofNat]; omega
        have hb1 : (UInt8.ofNat (0x80 + c / 64 % 64)).toNat = 0x80 + c / 64 % 64 := by
          rw [toNat_ofNat]; omega
        have hb2 : (UInt8.ofNat (0x80 + c % 64)).toNat = 0x80 + c % 64 := by
          rw [toNat_ofNat]; omega
        have hc1 : isCont (UInt8.ofNat (0x80 + c / 64 % 64)) = true := by
          simp only [isCont, hb1, Bool.and_eq_true, decide_eq_true_eq]; omega
        have hc2 : isCont (UInt8.ofNat (0x80 + c % 64)) = true := by
          simp only [isCont, hb2, Bool.and_eq_true, decide_eq_true_eq]; omega
        have hr : (0xE0 + c / 4096) % 16 * 4096 + (0x80 + c / 64 % 64) % 64 * 64
            + (0x80 + c % 64) % 64 = c := by omega
        simp only [decodeRune, hb0, hb1, hb2, hc1, hc2, hr, Bool.and_self, if_true,
          if_neg (by omega : ¬ (0xE0 + c / 4096 < 0x80)),
          if_neg (by omega : ¬ (0xC0 ≤ 0xE0 + c / 4096 ∧ 0xE0 + c / 4096 < 0xE0)),
          if_pos (by omega : 0xE0 ≤ 0xE0 + c / 4096 ∧ 0xE0 + c / 4096 < 0xF0),
          if_pos (by omega : 0x7FF < c ∧ ¬ (0xD800 ≤ c ∧ c ≤ 0xDFFF))]
        simp
      · rw [if_neg h3]
        simp only [List.cons_append, List.nil_append]
        rw [runes]
        have hb0 : (UInt8.ofNat (0xF0 + c / 262144)).toNat = 0xF0 + c / 262144 := by
          rw [toNat_ofNat]; omega
        have hb1 : (UInt8.ofNat (0x80 + c / 4096 % 64)).toNat = 0x80 + c / 4096 % 64 := by
          rw [toNat_ofNat]; omega
        have hb2 : (UInt8.ofNat (0x80 + c / 64 % 64)).toNat = 0x80 + c / 64 % 64 := by
          rw [toNat_ofNat]; omega
        have hb3 : (UInt8.ofNat (0x80 + c % 64)).toNat = 0x80 + c % 64 := by
          rw [toNat_ofNat]; omega
        have hc1 : isCont (UInt8.ofNat (0x80 + c / 4096 % 64)) = true := by
          simp only [isCont, hb1, Bool.and_eq_true, decide_eq_true_eq]; omega
        have hc2 : isCont (UInt8.ofNat (0x80 + c / 64 % 64)) = true := by
          simp only [isCont, hb2, Bool.and_eq_true, decide_eq_true_eq]; omega
        have hc3 : isCont (UInt8.ofNat (0x80 + c % 64)) = true := by
          simp only [isCont, hb3, Bool.and_eq_true, decide_eq_true_eq]; omega
        have hr : (0xF0 + c / 262144) % 8 * 262144 + (0x80 + c / 4096 % 64) % 64 * 4096
            + (0x80 + c / 64 % 64) % 64 * 64 + (0x80 + c % 64) % 64 = c := by omega
        simp only [decodeRune, hb0, hb1, hb2, hb3, hc1, hc2, hc3, hr, Bool.and_self, if_true,
          if_neg (by omega : ¬ (0xF0 + c / 262144 < 0x80)),
          if_neg (by omega : ¬ (0xC0 ≤ 0xF0 + c / 262144 ∧ 0xF0 + c / 262144 < 0xE0)),
          if_neg (by omega : ¬ (0xE0 ≤ 0xF0 + c / 262144 ∧ 0xF0 + c / 262144 < 0xF0)),
          if_pos (by omega : 0xF0 ≤ 0xF0 + c / 262144 ∧ 0xF0 + c / 262144 < 0xF8),
          if_pos (by omega : 0xFFFF < c ∧ c ≤ 0x10FFFF)]
        simp

theorem runes_utf8 (cs : List Nat) (hcs : ∀ c ∈ cs, IsScalar c) : runes (utf8 cs) = cs := by
  induction cs with
  | nil => simp [utf8, runes]
  | cons c cs ih =>
    have : utf8 (c :: cs) = runeString c ++ utf8 cs := by simp [utf8]
    rw [this, runes_runeString_append c (hcs c (List.mem_cons_self _ _)),
      ih (fun d hd => hcs d (List.mem_cons_of_mem _ hd))]


/-! ## HumanType -/

theorem inputTexts_append (xs ys : List Call) :
    inputTexts (xs ++ ys) = inputTexts xs ++ inputTexts ys := by
  induction xs with
  | nil => rfl
  | cons c cs ih => cases c <;> simp [inputTexts, ih]

theorem inputTexts_map_Input (ts : List GoString) :
    inputTexts (ts.map Call.Input) = ts := by
  induction ts with
  | nil => rfl
  | cons t ts ih => simp [inputTexts, ih]

/-- With every input dispatch succeeding the typing loop returns `nil` after one input event
per rune, in order, each carrying `string(char)`. -/
theorem typeLoop_spec (s : Surface) (hin : ∀ cs t, s.err cs (Call.Input t) = none)
    (chars : List Nat) (w : World) :
    ∃ w', typeLoop s chars w = some (none, w') ∧
      w'.calls = w.calls ++ (chars.map runeString).map Call.Input := by
  induction chars generalizing w with
  | nil => exact ⟨w, rfl, by simp⟩
  | cons c cs ih =>
    rw [typeLoop]
    simp only [dispatch, hin, HumanTypingDelay, Intn_of_pos (by decide : (0 : Int) < 100)]
    obtain ⟨w', h, hcalls⟩ := ih
      { rand := w.rand.next, calls := w.calls ++ [Call.Input (runeString c)],
        slept := w.slept ++
          [wrap64 (wrap64 (50 + ((w.rand.raw % (100 : Int).toNat : Nat) : Int)) * Millisecond)] }
    exact ⟨w', h, by rw [hcalls]; simp⟩

/-- C5 (as stated, refuted). For the one-byte text `"\xff"`, which is not valid UTF-8, the
range loop yields `U+FFFD` and `HumanType` dispatches the three-byte string `"�"`: the
concatenation of the dispatched strings is not the text. -/
theorem HumanType_invalid_utf8_is_replaced :
    ∃ w', HumanType (okSurface []) [] [0xFF] (freshWorld (constRand 0)) = some (none, w') ∧
      inputTexts w'.calls = [[0xEF, 0xBF, 0xBD]] ∧
      (inputTexts w'.calls).flatten ≠ [0xFF] := by
  have hr : runes [0xFF] = [0xFFFD] := by
    simp [runes, decodeRune, RuneError, UInt8.size]
  obtain ⟨w', h, hcalls⟩ := typeLoop_spec (okSurface []) (fun _ _ => rfl) [0xFFFD]
    { rand := constRand 0, calls := [Call.Element [], Call.Click, Call.SelectAllText],
      slept := [] }
  refine ⟨w', ?_, ?_, ?_⟩
  · unfold HumanType
    simp only [dispatch, okSurface, freshWorld, hr, List.nil_append, List.cons_append]
    exact h
  · rw [hcalls]
    simp only [List.map_cons, List.map_nil, List.cons_append, List.nil_append, inputTexts]
    decide
  · rw [hcalls]
    simp only [List.map_cons, List.map_nil, List.cons_append, List.nil_append, inputTexts]
    decide

/-- C5 (amended). For every valid UTF-8 text, given as the encoding of its code points `cs`, on
a surface where the element resolves and the click, the select-all and every input dispatch
succeed, `HumanType` returns `nil` after dispatching exactly one input event per code point,
in order, each carrying that code point's encoding; their concatenation is the text. -/
theorem HumanType_one_input_per_code_point (s : Surface) (selector : GoString)
    (cs : List Nat) (w : World) (hcs : ∀ c ∈ cs, IsScalar c)
    (hel : ∀ h, s.err h (Call.Element selector) = none)
    (hclick : ∀ h, s.err h Call.Click = none)
    (hsel : ∀ h, s.err h Call.SelectAllText = none)
    (hin : ∀ h t, s.err h (Call.Input t) = none) :
    ∃ w' new, HumanType s selector (utf8 cs) w = some (none, w') ∧
      w'.calls = w.calls ++ new ∧
      inputTexts new = cs.map runeString ∧
      (inputTexts new).length = cs.length ∧
      (inputTexts new).flatten = utf8 cs := by
  obtain ⟨w', h, hcalls⟩ := typeLoop_spec s hin cs
    { rand := w.rand,
      calls := w.calls ++ [Call.Element selector] ++ [Call.Click] ++ [Call.SelectAllText],
      slept := w.slept }
  have hnew : inputTexts ([Call.Element selector, Call.Click, Call.SelectAllText] ++
      (cs.map runeString).map Call.Input) = cs.map runeString := by
    rw [inputTexts_append, inputTexts_map_Input]
    rfl
  refine ⟨w', [Call.Element selector, Call.Click, Call.SelectAllText] ++
    (cs.map runeString).map Call.Input, ?_, ?_, hnew, ?_, ?_⟩
  · unfold HumanType
    simp only [dispatch, hel, hclick, hsel, runes_utf8 cs hcs]
    exact h
  · rw [hcalls]; simp
  · rw [hnew, List.length_map]
  · rw [hnew]; rfl

/-- Witness for C5 (amended): `"héllo"` is six bytes of UTF-8 and five code points; exactly
five input events are dispatched. -/
theorem HumanType_one_input_per_code_point_witness :
    utf8 [0x68, 0xE9, 0x6C, 0x6C, 0x6F] = [0x68, 0xC3, 0xA9, 0x6C, 0x6C, 0x6F] ∧
    ∃ w' new, HumanType (okSurface []) [] (utf8 [0x68, 0xE9, 0x6C, 0x6C, 0x6F])
        (freshWorld (constRand 0)) = some (none, w') ∧
      w'.calls = (freshWorld (constRand 0)).calls ++ new ∧
      inputTexts new = [0x68, 0xE9, 0x6C, 0x6C, 0x6F].map runeString ∧
      (inputTexts new).length = [0x68, 0xE9, 0x6C, 0x6C, 0x6F].length ∧
      (inputTexts new).flatten = utf8 [0x68, 0xE9, 0x6C, 0x6C, 0x6F] :=
  ⟨by decide,
    HumanType_one_input_per_code_point (okSurface []) [] [0x68, 0xE9, 0x6C, 0x6C, 0x6F]
      (freshWorld (constRand 0)) (by unfold IsScalar; decide) (fun _ => rfl) (fun _ => rfl)
      (fun _ => rfl) (fun _ _ => rfl)⟩


/-! ## HumanClick -/

/-- The quads for which the guard `len(box.Quads) == 0 || len(box.Quads[0]) < 8` holds make
`HumanClick` return the `err` it holds at that point. -/
theorem clickBox_guard (s : Surface) (w : World) (err : Option Error)
    (quads : List (List ℚ))
    (hq : quads = [] ∨ ∃ q rest, quads = q :: rest ∧ q.length < 8) :
    clickBox s err w quads = some (err, w) := by
  rcases hq with hq | ⟨q, rest, hq, hlen⟩
  · subst hq
    rfl
  · subst hq
    rcases q with _ | ⟨a, _ | ⟨b, _ | ⟨c, _ | ⟨d, _ | ⟨e, _ | ⟨f, _ | ⟨g, _ | ⟨h, q⟩⟩⟩⟩⟩⟩⟩⟩
    all_goals first
      | rfl
      | (simp only [List.length_cons] at hlen; omega)

/-- C6 (code evaluated where the quad cannot be obtained). Once the element is resolved, if
`Shape()` fails, returns no quads, or returns a first quad with fewer than 8 coordinates,
`HumanClick` stops after the `Shape()` call without any pointer move or click, and what it
returns is the `err` of `Shape()`: the failure when `Shape()` failed, but `nil` when `Shape()`
succeeded with no usable quad. -/
theorem HumanClick_without_quad (s : Surface) (selector : GoString) (w : World)
    (hel : s.err w.calls (Call.Element selector) = none)
    (hbad : s.err (w.calls ++ [Call.Element selector]) Call.Shape ≠ none ∨
      s.quads (w.calls ++ [Call.Element selector]) = [] ∨
      ∃ q rest, s.quads (w.calls ++ [Call.Element selector]) = q :: rest ∧ q.length < 8) :
    HumanClick s selector w = some
        (s.err (w.calls ++ [Call.Element selector]) Call.Shape,
          { w with calls := w.calls ++ [Call.Element selector, Call.Shape] }) ∧
      pointerCalls [Call.Element selector, Call.Shape] = [] := by
  refine ⟨?_, rfl⟩
  unfold HumanClick
  simp only [dispatch, hel]
  cases hsh : s.err (w.calls ++ [Call.Element selector]) Call.Shape with
  | some e => simp
  | none =>
    rcases hbad with hbad | hbad
    · exact absurd hsh hbad
    · simp only []
      rw [clickBox_guard s _ none _ hbad]
      simp

/-- C6 at the failing input: the element resolves and `Shape()` succeeds with no quads; the
error `HumanClick` returns is `nil`. -/
theorem HumanClick_without_quad_witness :
    (okSurface []).err ((freshWorld (constRand 0)).calls ++ [Call.Element []]) Call.Shape
        = none ∧
      (HumanClick (okSurface []) [] (freshWorld (constRand 0)) = some
        ((okSurface []).err ((freshWorld (constRand 0)).calls ++ [Call.Element []]) Call.Shape,
          { freshWorld (constRand 0) with
            calls := (freshWorld (constRand 0)).calls ++ [Call.Element [], Call.Shape] }) ∧
      pointerCalls [Call.Element [], Call.Shape] = []) :=
  ⟨rfl, HumanClick_without_quad (okSurface []) [] (freshWorld (constRand 0)) rfl
    (Or.inr (Or.inl rfl))⟩


/-! ## HumanScroll: failed dispatches -/

theorem float64Of_zero : float64Of 0 = 0 := by
  norm_num [float64Of]

/-- One pass after a chunk, with every raw draw zero: the corrective scroll of `-20` is
dispatched and its result discarded. -/
theorem afterChunk_constRand_zero (s : Surface) (w : World) (hr : ∀ j, w.rand.draws j = 0) :
    ∃ w', afterChunk s w = some w' ∧ w'.calls = w.calls ++ [Call.Eval (-20)] ∧
      ∀ j, w'.rand.draws j = 0 := by
  unfold afterChunk
  rw [RandomSleep_eq 100 500 w (by decide) (by decide) (by decide)]
  simp only [Float64, Rand.raw, Rand.next, hr, float64Of_zero]
  rw [if_pos (by norm_num)]
  rw [Intn_of_pos (by decide : (0 : Int) < 50)]
  simp only [dispatch, Rand.raw, Rand.next, hr]
  rw [RandomSleep_eq 50 150 _ (by decide) (by decide) (by decide)]
  exact ⟨_, rfl, by simp, hr⟩

/-- One turn of the scroll loop on the surface where back-scrolls fail, with every raw draw
zero: the chunk succeeds, the corrective `-20` is dispatched, and the loop goes on. -/
theorem scrollLoop_turn (chunkSize : Int) (hc : 0 < chunkSize) (remaining : Int) (w : World)
    (hpos : 0 < remaining) (hr : ∀ j, w.rand.draws j = 0) :
    ∃ w1, scrollLoop backScrollFails chunkSize hc remaining w =
        scrollLoop backScrollFails chunkSize hc
          (remaining - if chunkSize > remaining then remaining else chunkSize) w1 ∧
      w1.calls = w.calls ++
        [Call.Eval (if chunkSize > remaining then remaining else chunkSize), Call.Eval (-20)] ∧
      ∀ j, w1.rand.draws j = 0 := by
  have hcur : ¬ (if chunkSize > remaining then remaining else chunkSize) < 0 := by
    split_ifs <;> omega
  have herr : ∀ cs, backScrollFails.err cs
      (Call.Eval (if chunkSize > remaining then remaining else chunkSize)) = none := by
    intro cs
    simp only [backScrollFails, if_neg hcur]
  obtain ⟨w1, h1, hc1, hr1⟩ := afterChunk_constRand_zero backScrollFails
    { w with calls := w.calls ++
        [Call.Eval (if chunkSize > remaining then remaining else chunkSize)] } hr
  refine ⟨w1, ?_, ?_, hr1⟩
  · rw [scrollLoop, dif_pos hpos]
    simp only [dispatch, herr, h1]
  · rw [hc1]; simp

/-- The whole loop for 300 pixels with chunk size 200 on that surface. -/
theorem scrollLoop_backScrollFails (chunkSize : Int) (hc : 0 < chunkSize)
    (hcs : chunkSize = 200) (w : World) (hr : ∀ j, w.rand.draws j = 0) :
    ∃ w', scrollLoop backScrollFails chunkSize hc 300 w = some (none, w') ∧
      w'.calls = w.calls ++
        [Call.Eval 200, Call.Eval (-20), Call.Eval 100, Call.Eval (-20)] := by
  subst hcs
  obtain ⟨w1, h1, hc1, hr1⟩ := scrollLoop_turn 200 hc 300 w (by decide) hr
  obtain ⟨w2, h2, hc2, hr2⟩ := scrollLoop_turn 200 hc 100 w1 (by decide) hr1
  rw [if_pos (by decide)] at h2 hc2
  rw [if_neg (by decide)] at h1 hc1
  refine ⟨w2, ?_, ?_⟩
  · rw [h1]
    have e1 : (300 : Int) - 200 = 100 := by decide
    rw [e1, h2]
    have e2 : (100 : Int) - 100 = 0 := by decide
    rw [e2, scrollLoop, dif_neg (by decide)]
  · rw [hc2, hc1]
    simp

/-- C11 (code evaluated where a corrective scroll fails). On a surface where scrolls by a
negative amount fail, `HumanScroll(page, 300)` with every raw draw zero dispatches the chunk
200, the corrective `-20` (which fails), then goes on with the chunk 100 and another failing
`-20`, and returns `nil`: the errors of the corrective dispatches are discarded. -/
theorem HumanScroll_discards_corrective_failure :
    backScrollFails.err [Call.Eval 200] (Call.Eval (-20)) = some "scroll failed" ∧
      ∃ w', HumanScroll backScrollFails 300 (freshWorld (constRand 0)) = some (none, w') ∧
        w'.calls = [Call.Eval 200, Call.Eval (-20), Call.Eval 100, Call.Eval (-20)] := by
  refine ⟨rfl, ?_⟩
  unfold HumanScroll
  rw [Intn_of_pos (by decide : (0 : Int) < 300)]
  simp only []
  have hchunk : (200 : Int) +
      (((freshWorld (constRand 0)).rand.raw % (300 : Int).toNat : Nat) : Int) = 200 := by
    simp [freshWorld, constRand, Rand.raw]
  obtain ⟨w', h, hcalls⟩ := scrollLoop_backScrollFails _ (by omega) hchunk
    { rand := (freshWorld (constRand 0)).rand.next, calls := (freshWorld (constRand 0)).calls,
      slept := (freshWorld (constRand 0)).slept } (fun _ => rfl)
  exact ⟨w', h, by rw [hcalls]; rfl⟩


/-! ## Page setup -/

theorem GetRandomUserAgent_some (r : Rand) :
    ∃ ua, GetRandomUserAgent r = some (ua, r.next) := by
  unfold GetRandomUserAgent
  rw [Intn_of_pos (by decide)]
  exact ⟨_, rfl⟩

/-- C12. If the evaluation of the stealth script fails (the page was created and the user agent
set, so that the evaluation is reached), `ApplyStealthFingerprint` returns that error after its
single call, and `CreateStealthPage` returns a nil page with that same error; the evaluation is
its last call, so the viewport is not set. -/
theorem CreateStealthPage_stops_when_mask_fails (s : Surface) (userAgent : GoString)
    (w : World) (e : Error)
    (hpage : s.err w.calls Call.NewPage = none)
    (hua : ∀ ua al, s.err (w.calls ++ [Call.NewPage]) (Call.SetUserAgent ua al) = none)
    (hfail : ∀ cs, s.err cs Call.EvalStealthScript = some e) :
    (∀ w1, ApplyStealthFingerprint s w1 =
        (some e, { w1 with calls := w1.calls ++ [Call.EvalStealthScript] })) ∧
      ∃ ua w', CreateStealthPage s userAgent w = some ((false, some e), w') ∧
        w'.calls = w.calls ++
          [Call.NewPage, Call.SetUserAgent ua (goString "en-US,en;q=0.9"), Call.EvalStealthScript] ∧
        ∀ a b c d, Call.SetViewport a b c d ∉
          [Call.NewPage, Call.SetUserAgent ua (goString "en-US,en;q=0.9"), Call.EvalStealthScript] := by
  have happly : ∀ w1, ApplyStealthFingerprint s w1 =
      (some e, { w1 with calls := w1.calls ++ [Call.EvalStealthScript] }) := by
    intro w1
    simp only [ApplyStealthFingerprint, dispatch, hfail]
  refine ⟨happly, ?_⟩
  unfold CreateStealthPage
  simp only [dispatch, hpage]
  by_cases hempty : userAgent = []
  · obtain ⟨ua, hra⟩ := GetRandomUserAgent_some w.rand
    simp only [if_pos hempty, hra, hua, happly]
    exact ⟨ua, _, rfl, by simp, by simp⟩
  · simp only [if_neg hempty, hua, happly]
    exact ⟨userAgent, _, rfl, by simp, by simp⟩

/-- Witness for C12: a surface on which only the stealth script evaluation fails, with the
default user agent. -/
theorem CreateStealthPage_stops_when_mask_fails_witness :
    (∀ w1, ApplyStealthFingerprint stealthScriptFails w1 =
        (some "eval failed", { w1 with calls := w1.calls ++ [Call.EvalStealthScript] })) ∧
      ∃ ua w', CreateStealthPage stealthScriptFails [] (freshWorld (constRand 0)) =
          some ((false, some "eval failed"), w') ∧
        w'.calls = (freshWorld (constRand 0)).calls ++
          [Call.NewPage, Call.SetUserAgent ua (goString "en-US,en;q=0.9"), Call.EvalStealthScript] ∧
        ∀ a b c d, Call.SetViewport a b c d ∉
          [Call.NewPage, Call.SetUserAgent ua (goString "en-US,en;q=0.9"), Call.EvalStealthScript] :=
  CreateStealthPage_stops_when_mask_fails stealthScriptFails [] (freshWorld (constRand 0))
    "eval failed" rfl (fun _ _ => rfl) (fun _ => rfl)


/-! ## HumanMouseMove -/

/-- The move loop over `pre ++ rest` when the moves to `pre` succeed and the move to the head
of `rest`, if any, fails: it dispatches the moves to `pre` and to that head, in order, and
returns the error of the last one. -/
theorem moveLoop_spec (s : Surface) (pre rest : List Point) (w : World)
    (hok : ∀ a c b, pre = a ++ c :: b →
      s.err (w.calls ++ a.map Call.MoveTo) (Call.MoveTo c) = none)
    (hfail : ∀ p post, rest = p :: post →
      s.err (w.calls ++ pre.map Call.MoveTo) (Call.MoveTo p) ≠ none) :
    ∃ w', moveLoop s (pre ++ rest) w = some (moveError s w.calls pre rest, w') ∧
      w'.calls = w.calls ++ (pre ++ rest.take 1).map Call.MoveTo := by
  induction pre generalizing w with
  | nil =>
    cases rest with
    | nil => exact ⟨w, rfl, by simp⟩
    | cons p post =>
      have hf := hfail p post rfl
      simp only [List.map_nil, List.append_nil] at hf
      obtain ⟨e, he⟩ := Option.ne_none_iff_exists'.mp hf
      refine ⟨{ w with calls := w.calls ++ [Call.MoveTo p] }, ?_, by simp⟩
      simp only [List.nil_append, moveLoop, dispatch, moveError, List.map_nil, List.append_nil,
        he]
  | cons c pre ih =>
    have h0 : s.err w.calls (Call.MoveTo c) = none := by
      have := hok [] c pre rfl
      simpa using this
    obtain ⟨w', h, hcalls⟩ := ih
      { rand := w.rand.next, calls := w.calls ++ [Call.MoveTo c],
        slept := w.slept ++ [(5 + ((w.rand.raw % (max 5 15 - 5 + 1 : Int).toNat : Nat) : Int))
          * Millisecond] }
      (by
        intro a c' b hab
        have := hok (c :: a) c' b (by rw [hab]; rfl)
        simpa using this)
      (by
        intro p post hp
        have := hfail p post hp
        simpa using this)
    refine ⟨w', ?_, ?_⟩
    · simp only [List.cons_append, moveLoop, dispatch, h0]
      rw [RandomSleep_eq 5 15 _ (by decide) (by decide) (by decide)]
      simp only []
      refine Eq.trans h ?_
      cases rest <;> simp [moveError]
    · rw [hcalls]; simp

/-- C13. `HumanMouseMove(page, start, end)` dispatches pointer moves to the elements of
`GenerateOvershootPath(start, end)` in path order. When the moves to the first elements `pre`
succeed and the next one fails, it returns that error after exactly `len(pre) + 1` dispatches
and issues none of the remaining ones; when all succeed it returns `nil` after one dispatch
per element, the last of them to exactly `end`. -/
theorem HumanMouseMove_stops_at_first_failure (s : Surface) (start end_ : Point) (w : World)
    (pre rest : List Point)
    (hpath : (GenerateOvershootPath start end_ w.rand).1 = pre ++ rest)
    (hok : ∀ a c b, pre = a ++ c :: b →
      s.err (w.calls ++ a.map Call.MoveTo) (Call.MoveTo c) = none)
    (hfail : ∀ p post, rest = p :: post →
      s.err (w.calls ++ pre.map Call.MoveTo) (Call.MoveTo p) ≠ none) :
    ∃ w', HumanMouseMove s start end_ w = some (moveError s w.calls pre rest, w') ∧
      w'.calls = w.calls ++ (pre ++ rest.take 1).map Call.MoveTo ∧
      (∀ p post, rest = p :: post →
        moveError s w.calls pre rest ≠ none ∧
        (w'.calls.drop w.calls.length).length = pre.length + 1) ∧
      (rest = [] →
        moveError s w.calls pre rest = none ∧
        w'.calls = w.calls ++ (GenerateOvershootPath start end_ w.rand).1.map Call.MoveTo ∧
        w'.calls.getLast? = some (Call.MoveTo end_)) := by
  obtain ⟨w', h, hcalls⟩ := moveLoop_spec s pre rest
    { w with rand := (GenerateOvershootPath start end_ w.rand).2 } hok hfail
  refine ⟨w', ?_, hcalls, ?_, ?_⟩
  · unfold HumanMouseMove
    simp only [hpath]
    exact h
  · intro p post hp
    subst hp
    refine ⟨hfail p post rfl, ?_⟩
    rw [hcalls]
    simp
  · intro hrest
    subst hrest
    have hlast := (GenerateOvershootPath_fst start end_ w.rand)
    refine ⟨rfl, ?_, ?_⟩
    · rw [hcalls, hpath]; simp
    · rw [hcalls]
      simp only [List.take_nil, List.append_nil] at hpath ⊢
      rw [← hpath, hlast, ← List.append_assoc, List.map_append, ← List.append_assoc]
      simp

/-- Witness for C13: a move from `(0,0)` to `(100,0)` on a surface where every call succeeds
(all of the path is dispatched), and on a surface where every pointer move fails (one dispatch,
then the error). -/
theorem HumanMouseMove_stops_at_first_failure_witness :
    (∃ w', HumanMouseMove (okSurface []) ⟨0, 0⟩ ⟨100, 0⟩ (freshWorld (constRand 0)) =
        some (none, w') ∧
      w'.calls.getLast? = some (Call.MoveTo ⟨100, 0⟩)) ∧
    (∃ w', HumanMouseMove moveFails ⟨0, 0⟩ ⟨100, 0⟩ (freshWorld (constRand 0)) =
        some (some "move failed", w') ∧
      w'.calls.length = 1) := by
  constructor
  · obtain ⟨w', h, _, _, hall⟩ := HumanMouseMove_stops_at_first_failure (okSurface [])
      ⟨0, 0⟩ ⟨100, 0⟩ (freshWorld (constRand 0))
      (GenerateOvershootPath ⟨0, 0⟩ ⟨100, 0⟩ (freshWorld (constRand 0)).rand).1 []
      (by simp) (fun _ _ _ _ => rfl) (fun _ _ h => by simp at h)
    exact ⟨w', h, (hall rfl).2.2⟩
  · obtain ⟨p, post, hp⟩ : ∃ p post,
        (GenerateOvershootPath ⟨0, 0⟩ ⟨100, 0⟩ (freshWorld (constRand 0)).rand).1 = p :: post := by
      rw [GenerateOvershootPath_fst]
      cases hcs : curveSamples ⟨0, 0⟩
          (overshootPoint ⟨0, 0⟩ ⟨100, 0⟩ (overshootFactorOf (freshWorld (constRand 0)).rand))
          (freshWorld (constRand 0)).rand.next with
      | nil =>
        have := curveSamples_length ⟨0, 0⟩
          (overshootPoint ⟨0, 0⟩ ⟨100, 0⟩ (overshootFactorOf (freshWorld (constRand 0)).rand))
          (freshWorld (constRand 0)).rand.next
        rw [hcs] at this
        have h5 := numPoints_ge ⟨0, 0⟩
          (overshootPoint ⟨0, 0⟩ ⟨100, 0⟩ (overshootFactorOf (freshWorld (constRand 0)).rand))
        simp at this
        omega
      | cons p post => exact ⟨p, _, rfl⟩
    obtain ⟨w', h, hcalls, hf, _⟩ := HumanMouseMove_stops_at_first_failure moveFails
      ⟨0, 0⟩ ⟨100, 0⟩ (freshWorld (constRand 0)) [] (p :: post)
      (by rw [hp]; rfl) (fun a c b h => by simp at h)
      (fun _ _ _ => by simp [moveFails])
    refine ⟨w', ?_, ?_⟩
    · rw [h]; rfl
    · rw [hcalls]; rfl


/-! ## Preset delays -/

theorem HumanTypingDelay_eq (r : Rand) :
    HumanTypingDelay r = some ((50 + ((r.raw % 100 : Nat) : Int)) * Millisecond, r.next) := by
  unfold HumanTypingDelay
  rw [Intn_of_pos (by decide : (0 : Int) < 100)]
  have h100 : (100 : Int).toNat = 100 := rfl
  have hv := Nat.mod_lt r.raw (by decide : 0 < 100)
  simp only [h100]
  rw [wrap64_of_range (x := 50 + _) (by omega) (by omega),
    wrap64_of_range (by unfold Millisecond; omega) (by unfold Millisecond; omega)]

/-- C14 (code evaluated). The values `HumanTypingDelay` returns over all draws are exactly the
whole-millisecond durations 50, 51, ..., 149: every result is one of them, each of them is
returned for some draw (the largest, 149 ms, for the raw draw 99), and 150 ms is returned for
no draw. -/
theorem HumanTypingDelay_values :
    (∀ r, ∃ d : Int, HumanTypingDelay r = some (d * Millisecond, r.next) ∧ 50 ≤ d ∧ d ≤ 149) ∧
      (∀ d : Int, 50 ≤ d → d ≤ 149 →
        ∃ r, HumanTypingDelay r = some (d * Millisecond, r.next)) ∧
      HumanTypingDelay (constRand 99) = some (149 * Millisecond, (constRand 99).next) ∧
      ¬ ∃ r rand, HumanTypingDelay r = some (150 * Millisecond, rand) := by
  refine ⟨?_, ?_, ?_, ?_⟩
  · intro r
    have hv := Nat.mod_lt r.raw (by decide : 0 < 100)
    exact ⟨_, HumanTypingDelay_eq r, by omega, by omega⟩
  · intro d h1 h2
    refine ⟨constRand (d - 50).toNat, ?_⟩
    rw [HumanTypingDelay_eq]
    have hraw : (constRand (d - 50).toNat).raw = (d - 50).toNat := rfl
    rw [hraw]
    have : (((d - 50).toNat % 100 : Nat) : Int) = d - 50 := by omega
    rw [this]
    congr 3
    omega
  · rw [HumanTypingDelay_eq]
    rfl
  · rintro ⟨r, rand, h⟩
    rw [HumanTypingDelay_eq] at h
    have hv := Nat.mod_lt r.raw (by decide : 0 < 100)
    simp only [Option.some.injEq, Prod.mk.injEq] at h
    have h1 := h.1
    unfold Millisecond at h1
    omega


/-! ## HumanType and the pointer -/

theorem AttemptsGuarded_concat {actions : List Action} (a : Action)
    (h : AttemptsGuarded actions)
    (ha : ∀ url n e, a = Action.SendConnectionRequest url n e →
      ∃ pre', actions = pre' ++ [Action.IsProcessed url false none]) :
    AttemptsGuarded (actions ++ [a]) := by
  intro pre url n e post heq
  rcases List.eq_nil_or_concat post with hpost | ⟨post', b, hpost⟩
  · subst hpost
    have h2 : actions ++ [a] = pre ++ [Action.SendConnectionRequest url n e] := heq
    obtain ⟨h3, h4⟩ := List.append_inj' h2 rfl
    obtain ⟨pre', hpre⟩ := ha url n e (by simpa using h4)
    exact ⟨pre', by rw [← h3, hpre]⟩
  · subst hpost
    have h2 : actions ++ [a] = (pre ++ Action.SendConnectionRequest url n e :: post') ++ [b] := by
      rw [heq]; simp
    obtain ⟨h3, _⟩ := List.append_inj' h2 rfl
    exact h pre url n e post' h3

theorem sentCount_concat (actions : List Action) (a : Action) :
    sentCount (actions ++ [a]) = sentCount actions + sentCount [a] := by
  unfold sentCount
  rw [List.countP_append]

/-- The loop keeps the safety limit: started within the limit it ends, without a panic, within
the limit. -/
theorem campaignLoop_within_limit (c : Collaborators) (MaxActions : Int)
    (hint : MaxActions ≤ 9223372036854775807) (profiles : List ProfileResult) :
    ∀ st, WithinLimit MaxActions st →
      ∃ st', campaignLoop c MaxActions profiles st = some st' ∧ WithinLimit MaxActions st' := by
  induction profiles with
  | nil => intro st h; exact ⟨st, rfl, h⟩
  | cons profile rest ih =>
    intro st h
    obtain ⟨h0, hle, hcount, hatt, hg⟩ := h
    rw [campaignLoop]
    by_cases hlim : st.actionsCount ≥ MaxActions
    · rw [if_pos hlim]
      exact ⟨st, rfl, h0, hle, hcount, hatt, hg⟩
    · rw [if_neg hlim]
      simp only []
      have hg1 : AttemptsGuarded (st.actions ++ [Action.IsProcessed profile.URL
          (c.IsProcessed st.actions profile.URL).1 (c.IsProcessed st.actions profile.URL).2]) :=
        AttemptsGuarded_concat _ hg (fun _ _ _ h => by simp at h)
      have hin1 : WithinLimit MaxActions { st with
          actions := st.actions ++ [Action.IsProcessed profile.URL
            (c.IsProcessed st.actions profile.URL).1
            (c.IsProcessed st.actions profile.URL).2] } := by
        refine ⟨h0, hle, ?_, ?_, hg1⟩
        · simp only [sentCount_concat, hcount]
          simp [sentCount]
        · intro url n e hmem
          simp only [List.mem_append, List.mem_singleton] at hmem
          rcases hmem with hmem | hmem
          · exact hatt url n e hmem
          · simp at hmem
      cases hp2 : (c.IsProcessed st.actions profile.URL).2 with
      | some err =>
        simp only []
        rw [hp2] at hin1
        exact ih _ hin1
      | none =>
        rw [hp2] at hin1 hg1
        simp only []
        by_cases hp1 : (c.IsProcessed st.actions profile.URL).1 = true
        · rw [if_pos hp1]
          exact ih _ hin1
        · rw [if_neg hp1]
          have hp1' : (c.IsProcessed st.actions profile.URL).1 = false := by
            simpa using hp1
          rw [hp1'] at hin1 hg1 ⊢
          set acts1 := st.actions ++ [Action.IsProcessed profile.URL false none] with hacts1
          set r := c.SendConnectionRequest acts1 st.world profile.URL with hr
          have hg2 : AttemptsGuarded
              (acts1 ++ [Action.SendConnectionRequest profile.URL st.actionsCount r.1]) := by
            refine AttemptsGuarded_concat _ hg1 ?_
            intro url n e h
            simp only [Action.SendConnectionRequest.injEq] at h
            exact ⟨st.actions, by rw [hacts1, h.1]⟩
          have hatt2 : ∀ url n e, Action.SendConnectionRequest url n e ∈
              acts1 ++ [Action.SendConnectionRequest profile.URL st.actionsCount r.1] →
              n < MaxActions := by
            intro url n e hmem
            simp only [List.mem_append, List.mem_singleton] at hmem
            rcases hmem with hmem | hmem
            · exact hin1.2.2.2.1 url n e hmem
            · simp only [Action.SendConnectionRequest.injEq] at hmem
              rw [hmem.2.1]
              omega
          cases hr1 : r.1 with
          | some err =>
            simp only []
            refine ih _ ⟨h0, hle, ?_, ?_, ?_⟩
            · have hc1 : st.actionsCount = (sentCount acts1 : Int) := hin1.2.2.1
              have e1 : sentCount
                  [Action.SendConnectionRequest profile.URL st.actionsCount (some err)] = 0 := by
                simp [sentCount]
              simp only [sentCount_concat, e1]
              push_cast
              omega
            · rw [hr1] at hatt2; exact hatt2
            · rw [hr1] at hg2; exact hg2
          | none =>
            simp only []
            rw [hr1] at hatt2 hg2
            rw [wrap64_of_range (by omega) (by omega),
              RandomSleep_eq 5000 10000 _ (by decide) (by decide) (by decide)]
            simp only []
            refine ih _ ⟨by simp only []; omega, by simp only []; omega, ?_, ?_, ?_⟩
            · have hc1 : st.actionsCount = (sentCount acts1 : Int) := hin1.2.2.1
              have e1 : sentCount
                  [Action.SendConnectionRequest profile.URL st.actionsCount none] = 1 := by
                simp [sentCount]
              have e2 : ∀ m, sentCount [Action.MarkProcessed profile.URL m] = 0 := by
                intro m
                simp [sentCount]
              simp only [sentCount_concat, e1, e2]
              push_cast
              omega
            · intro url n e hmem
              simp only [List.mem_append, List.mem_singleton] at hmem
              rcases hmem with hmem | hmem
              · exact hatt2 url n e (by simpa using hmem)
              · simp at hmem
            · exact AttemptsGuarded_concat _ hg2 (fun _ _ _ h => by simp at h)


/-- C18. For every profile list, every `MaxActions ≥ 0` (a Go `int`) and every behaviour of the
history lookups, connection attempts and history writes, the campaign loop ends without a
panic; the counter `actionsCount` is the number of successful connection requests and never
exceeds `MaxActions`; every connection attempt is made while the counter is still below
`MaxActions`; and every attempt directly follows a lookup that reported its URL as not
processed, without error. -/
theorem campaign_respects_safety_limit (c : Collaborators) (MaxActions : Int)
    (profiles : List ProfileResult) (w : World) (h0 : 0 ≤ MaxActions)
    (hint : MaxActions ≤ 9223372036854775807) :
    ∃ st, campaign c MaxActions profiles w = some st ∧
      0 ≤ st.actionsCount ∧ st.actionsCount ≤ MaxActions ∧
      st.actionsCount = sentCount st.actions ∧
      (∀ url n e, Action.SendConnectionRequest url n e ∈ st.actions → n < MaxActions) ∧
      (∀ pre url n e post, st.actions = pre ++ Action.SendConnectionRequest url n e :: post →
        ∃ pre', pre = pre' ++ [Action.IsProcessed url false none]) := by
  obtain ⟨st, h, hin⟩ := campaignLoop_within_limit c MaxActions hint profiles
    { actionsCount := 0, actions := [], world := w }
    ⟨le_refl 0, h0, rfl, by simp, by intro pre url n e post h; simp at h⟩
  exact ⟨st, h, hin.1, hin.2.1, hin.2.2.1, hin.2.2.2.1, hin.2.2.2.2⟩

/-- Witness for C18: three profiles, none processed yet, every request succeeding, with
`MaxActions = 2`; the loop stops with two requests counted. -/
theorem campaign_respects_safety_limit_witness :
    (campaign okCollaborators 2 threeProfiles (freshWorld (constRand 0))).map
        (fun st => st.actionsCount) = some 2 ∧
    ∃ st, campaign okCollaborators 2 threeProfiles (freshWorld (constRand 0)) = some st ∧
      0 ≤ st.actionsCount ∧ st.actionsCount ≤ 2 ∧
      st.actionsCount = sentCount st.actions ∧
      (∀ url n e, Action.SendConnectionRequest url n e ∈ st.actions → n < 2) ∧
      (∀ pre url n e post, st.actions = pre ++ Action.SendConnectionRequest url n e :: post →
        ∃ pre', pre = pre' ++ [Action.IsProcessed url false none]) :=
  ⟨rfl, campaign_respects_safety_limit okCollaborators 2 threeProfiles
    (freshWorld (constRand 0)) (by decide) (by decide)⟩


end Stealth
